import Mathlib

/-!
Verification of the "faulty terminal" shader background and its zoom
transition state machine (FaultyTerminal.jsx).  The JavaScript / GLSL
source is embedded shallowly over `ℚ`: GLSL float literals become exact
rationals, `floor` becomes `Int.floor`, and the requestAnimationFrame
loop becomes an explicit step function over a small state record driven
by a list of tick timestamps and request flags.
-/

/-- `easeOutCubic(t) = 1 - Math.pow(1 - t, 3)` from FaultyTerminal.jsx. -/
def easeOutCubic (t : ℚ) : ℚ := 1 - (1 - t) ^ 3

/-- `GATHER_DURATION_MS = 1100`, the duration of both zoom transitions. -/
def GATHER_DURATION_MS : ℚ := 1100

/-- The mutable refs of the transition state machine that the `update`
loop reads and writes: the `uGatherProgress` uniform value, and the
`transitionStartRef` / `zoomBackStartRef` phase-start bookkeeping
(`0` = waiting for a first frame timestamp, `-1` = completed/parked). -/
structure ZoomState where
  gatherProgress : ℚ
  transitionStart : ℚ
  zoomBackStart : ℚ
  deriving DecidableEq, Repr

/-- Initial values: `uGatherProgress: 0`, `transitionStartRef = useRef(0)`,
`zoomBackStartRef = useRef(-1)`. -/
def initZoomState : ZoomState := ⟨0, 0, -1⟩

/-- Result of one `update` tick: the new transition state, and whether
`onTransitionComplete` resp. `onZoomBackComplete` were invoked on this tick. -/
structure TickResult where
  state : ZoomState
  firedTransitionComplete : Bool
  firedZoomBackComplete : Bool
  deriving DecidableEq, Repr

/-- The transition-handling chain of `update(t)` (FaultyTerminal.jsx):
zoom-back branch, else zoom-in branch, else the `transitionStart := 0`
reset when the request flag is off.  The writes that copy
`transitionTarget` into the `uTargetPos` uniform do not touch the
transition state and are omitted. -/
def zoomStepCore (req back : Bool) (t : ℚ) (s : ZoomState) : TickResult :=
  if back = true ∧ 0 ≤ s.zoomBackStart then
    let start := if s.zoomBackStart = 0 then t else s.zoomBackStart
    let elapsed := t - start
    if elapsed < GATHER_DURATION_MS then
      ⟨⟨1 - easeOutCubic (elapsed / GATHER_DURATION_MS), s.transitionStart, start⟩, false, false⟩
    else
      ⟨⟨0, s.transitionStart, -1⟩, false, true⟩
  else if req = true ∧ 0 ≤ s.transitionStart then
    let start := if s.transitionStart = 0 then t else s.transitionStart
    let elapsed := t - start
    if elapsed < GATHER_DURATION_MS then
      ⟨⟨easeOutCubic (elapsed / GATHER_DURATION_MS), start, s.zoomBackStart⟩, false, false⟩
    else
      ⟨⟨1, -1, s.zoomBackStart⟩, true, false⟩
  else if req = false then
    ⟨⟨s.gatherProgress, 0, s.zoomBackStart⟩, false, false⟩
  else
    ⟨s, false, false⟩

/-- One full `update(t)` tick of the transition state machine: the
branch chain above followed by the unconditional trailing
`if (!zoomBackRequested) zoomBackStart := 0` reset. -/
def zoomStep (req back : Bool) (t : ℚ) (s : ZoomState) : TickResult :=
  let r := zoomStepCore req back t s
  if back = false then
    ⟨⟨r.state.gatherProgress, r.state.transitionStart, 0⟩,
      r.firedTransitionComplete, r.firedZoomBackComplete⟩
  else r

/-- Accumulated result of a run of `update` ticks: final state plus how
many times each completion callback fired. -/
structure RunResult where
  state : ZoomState
  transitionCompleteCount : ℕ
  zoomBackCompleteCount : ℕ
  deriving DecidableEq, Repr

/-- Run the transition step over a list of ticks
`(timestamp, transitionRequested, zoomBackRequested)`. -/
def runTicks : List (ℚ × Bool × Bool) → ZoomState → RunResult
  | [], s => ⟨s, 0, 0⟩
  | (t, req, back) :: rest, s =>
    let r := zoomStep req back t s
    let rr := runTicks rest r.state
    ⟨rr.state,
      (if r.firedTransitionComplete then 1 else 0) + rr.transitionCompleteCount,
      (if r.firedZoomBackComplete then 1 else 0) + rr.zoomBackCompleteCount⟩

/-- A tick during which the navigation layer holds `transitionRequested`
true and `zoomBackRequested` false. -/
def inTick (t : ℚ) : ℚ × Bool × Bool := (t, true, false)

/-- A tick during which the navigation layer holds `zoomBackRequested`
true and `transitionRequested` false. -/
def backTick (t : ℚ) : ℚ × Bool × Bool := (t, false, true)

/-- GLSL `clamp`. -/
def clampQ (x lo hi : ℚ) : ℚ := max lo (min x hi)

/-- The gather remap applied to the sampled world position `p` in the
fragment shader `main()` when `uGatherProgress > 0.001` (one component;
all GLSL vec2 operations involved act componentwise):
`prog = clamp(uGatherProgress, 0.0, 0.9999) * 0.58`,
`s = (p - targetWorld * prog) / (1.0 - prog)`,
`s_cell = floor(s * gridVec) / gridVec`,
`s_new = s_cell + (targetWorld - s_cell) * prog`,
`cellCenter = s_cell + 0.5 / gridVec`,
`p = cellCenter + (p - s_new)`. -/
def gatherRemapWorld (g p targetWorld grid : ℚ) : ℚ :=
  let prog := clampQ g 0 (9999 / 10000) * (58 / 100)
  let s := (p - targetWorld * prog) / (1 - prog)
  let s_cell := (⌊s * grid⌋ : ℚ) / grid
  let s_new := s_cell + (targetWorld - s_cell) * prog
  let cellCenter := s_cell + (1 / 2) / grid
  cellCenter + (p - s_new)

/-- The gather remap applied to `mouseSamplingPos = uMouse * uScale` in
the same branch of `main()`:
`s_m = (mouseSamplingPos - targetWorld * prog) / (1.0 - prog)`,
`s_cell_m = floor(s_m * gridVec) / gridVec`,
`s_new_m = s_cell_m + (targetWorld - s_cell_m) * prog`,
`cellCenter_m = s_cell_m + 0.5 / gridVec`,
`mouseSamplingPos = cellCenter_m + (mouseSamplingPos - s_new_m)`. -/
def gatherRemapMouse (g m targetWorld grid : ℚ) : ℚ :=
  let prog := clampQ g 0 (9999 / 10000) * (58 / 100)
  let s_m := (m - targetWorld * prog) / (1 - prog)
  let s_cell_m := (⌊s_m * grid⌋ : ℚ) / grid
  let s_new_m := s_cell_m + (targetWorld - s_cell_m) * prog
  let cellCenter_m := s_cell_m + (1 / 2) / grid
  cellCenter_m + (m - s_new_m)

/-- The gather remap exactly as the specification words it:
`scaledProgress = clamp(g, 0, 0.9999) * 0.58`,
`s = (p - T*scaledProgress)/(1 - scaledProgress)`,
`cell = floor(s*gridDensity)/gridDensity`,
`s2 = cell + (T - cell)*scaledProgress`,
`cellCenter = cell + 0.5/gridDensity`,
result `cellCenter + (p - s2)`. -/
def gatherRemapSpec (g p T grid : ℚ) : ℚ :=
  let scaledProgress := clampQ g 0 (9999 / 10000) * (58 / 100)
  let s := (p - T * scaledProgress) / (1 - scaledProgress)
  let cell := (⌊s * grid⌋ : ℚ) / grid
  let s2 := cell + (T - cell) * scaledProgress
  let cellCenter := cell + (1 / 2) / grid
  cellCenter + (p - s2)

/-- Position used for pattern sampling in `main()`: the gather branch is
entered only when `uGatherProgress > 0.001`; otherwise `p = uv * uScale`
is used unchanged. -/
def sampledWorldPos (g p T grid : ℚ) : ℚ :=
  if g > 1 / 1000 then gatherRemapWorld g p T grid else p

/-- `grainTime` from `main()`:
`grainTime = (uGatherProgress > 0.5) ? (iTime * 0.005) : time` where
`time = iTime * 0.333333`. -/
def grainTime (g iTime : ℚ) : ℚ :=
  if g > 1 / 2 then iTime * (5 / 1000) else iTime * (333333 / 1000000)

theorem easeOutCubic_zero : easeOutCubic 0 = 0 := by norm_num [easeOutCubic]

theorem easeOutCubic_one : easeOutCubic 1 = 1 := by norm_num [easeOutCubic]

/-- `easeOutCubic` is monotone (globally, since the cube is monotone). -/
theorem easeOutCubic_mono {a b : ℚ} (h : a ≤ b) : easeOutCubic a ≤ easeOutCubic b := by
  unfold easeOutCubic
  nlinarith [sq_nonneg ((1 - a) + (1 - b)), sq_nonneg (1 - a), sq_nonneg (1 - b)]

theorem easeOutCubic_nonneg {a : ℚ} (h : 0 ≤ a) : 0 ≤ easeOutCubic a := by
  have := easeOutCubic_mono h
  rwa [easeOutCubic_zero] at this

theorem easeOutCubic_le_one {a : ℚ} (h : a ≤ 1) : easeOutCubic a ≤ 1 := by
  have := easeOutCubic_mono h
  rwa [easeOutCubic_one] at this

/-- First zoom-in tick: from the idle bookkeeping (`transitionStart = 0`)
the tick records the frame timestamp as phase start and writes progress 0. -/
theorem zoomStep_in_start (t p z : ℚ) :
    zoomStep true false t ⟨p, 0, z⟩ = ⟨⟨0, t, 0⟩, false, false⟩ := by
  norm_num [zoomStep, zoomStepCore, GATHER_DURATION_MS, easeOutCubic]

/-- Mid zoom-in tick: with phase start `t0 > 0` and elapsed below the
duration, the tick writes the eased progress and fires no callback. -/
theorem zoomStep_in_mid (t0 t p : ℚ) (h0 : 0 < t0) (h : t - t0 < GATHER_DURATION_MS) :
    zoomStep true false t ⟨p, t0, 0⟩ =
      ⟨⟨easeOutCubic ((t - t0) / GATHER_DURATION_MS), t0, 0⟩, false, false⟩ := by
  simp [zoomStep, zoomStepCore, h0.le, h0.ne', h]

/-- Completing zoom-in tick: once elapsed reaches the duration the tick
writes exactly 1, parks the phase start at `-1` and fires
`onTransitionComplete`. -/
theorem zoomStep_in_done (t0 t p : ℚ) (h0 : 0 < t0) (h : GATHER_DURATION_MS ≤ t - t0) :
    zoomStep true false t ⟨p, t0, 0⟩ = ⟨⟨1, -1, 0⟩, true, false⟩ := by
  simp [zoomStep, zoomStepCore, h0.le, h0.ne', not_lt.mpr h]

/-- First zoom-back tick: from `zoomBackStart = 0` the tick records the
frame timestamp and writes progress `1 - easeOutCubic 0 = 1`. -/
theorem zoomStep_back_start (t p ts : ℚ) :
    zoomStep false true t ⟨p, ts, 0⟩ = ⟨⟨1, ts, t⟩, false, false⟩ := by
  norm_num [zoomStep, zoomStepCore, GATHER_DURATION_MS, easeOutCubic]

/-- Mid zoom-back tick. -/
theorem zoomStep_back_mid (t1 t p ts : ℚ) (h1 : 0 < t1) (h : t - t1 < GATHER_DURATION_MS) :
    zoomStep false true t ⟨p, ts, t1⟩ =
      ⟨⟨1 - easeOutCubic ((t - t1) / GATHER_DURATION_MS), ts, t1⟩, false, false⟩ := by
  simp [zoomStep, zoomStepCore, h1.le, h1.ne', h]

/-- Completing zoom-back tick: writes exactly 0, parks `zoomBackStart`
at `-1` and fires `onZoomBackComplete`. -/
theorem zoomStep_back_done (t1 t p ts : ℚ) (h1 : 0 < t1) (h : GATHER_DURATION_MS ≤ t - t1) :
    zoomStep false true t ⟨p, ts, t1⟩ = ⟨⟨0, ts, -1⟩, false, true⟩ := by
  simp [zoomStep, zoomStepCore, h1.le, h1.ne', not_lt.mpr h]

theorem runTicks_nil (s : ZoomState) : runTicks [] s = ⟨s, 0, 0⟩ := rfl

theorem runTicks_cons (t : ℚ) (req back : Bool) (rest : List (ℚ × Bool × Bool)) (s : ZoomState) :
    runTicks ((t, req, back) :: rest) s =
      ⟨(runTicks rest (zoomStep req back t s).state).state,
        (if (zoomStep req back t s).firedTransitionComplete then 1 else 0)
          + (runTicks rest (zoomStep req back t s).state).transitionCompleteCount,
        (if (zoomStep req back t s).firedZoomBackComplete then 1 else 0)
          + (runTicks rest (zoomStep req back t s).state).zoomBackCompleteCount⟩ := rfl

/-- Running a concatenation of ticks runs the pieces in order and adds
the callback counts. -/
theorem runTicks_append (l1 l2 : List (ℚ × Bool × Bool)) (s : ZoomState) :
    runTicks (l1 ++ l2) s =
      ⟨(runTicks l2 (runTicks l1 s).state).state,
        (runTicks l1 s).transitionCompleteCount
          + (runTicks l2 (runTicks l1 s).state).transitionCompleteCount,
        (runTicks l1 s).zoomBackCompleteCount
          + (runTicks l2 (runTicks l1 s).state).zoomBackCompleteCount⟩ := by
  induction l1 generalizing s with
  | nil => simp [runTicks]
  | cons hd tl ih =>
    obtain ⟨t, req, back⟩ := hd
    simp [runTicks_cons, ih, Nat.add_assoc]

/-- A zooming-in phase with start `t0`, intermediate ticks `mids` before
the duration elapses, and a final tick `tA` at or past the duration, run
from mid-phase state `⟨p, t0, 0⟩`: it ends in the zoomed state with
progress exactly 1 and fires `onTransitionComplete` exactly once. -/
theorem runTicks_in_phase (t0 tA : ℚ) (h0 : 0 < t0) (hA : GATHER_DURATION_MS ≤ tA - t0) :
    ∀ (mids : List ℚ) (p : ℚ), (∀ x ∈ mids, x - t0 < GATHER_DURATION_MS) →
      runTicks ((mids ++ [tA]).map inTick) ⟨p, t0, 0⟩ = ⟨⟨1, -1, 0⟩, 1, 0⟩ := by
  intro mids
  induction mids with
  | nil =>
    intro p _
    simp [runTicks_cons, runTicks_nil, inTick, zoomStep_in_done t0 tA p h0 hA]
  | cons m ms ih =>
    intro p hm
    have h1 : m - t0 < GATHER_DURATION_MS := hm m (by simp)
    have hrest : ∀ x ∈ ms, x - t0 < GATHER_DURATION_MS := fun x hx => hm x (by simp [hx])
    have hin : List.map inTick ((m :: ms) ++ [tA])
        = (m, true, false) :: List.map inTick (ms ++ [tA]) := rfl
    rw [hin, runTicks_cons, zoomStep_in_mid t0 m p h0 h1,
      ih (easeOutCubic ((m - t0) / GATHER_DURATION_MS)) hrest]
    rfl

/-- A zooming-back phase with start `t1`, run from mid-phase state
`⟨p, ts, t1⟩`: it ends with progress exactly 0 and fires
`onZoomBackComplete` exactly once. -/
theorem runTicks_back_phase (t1 tB ts : ℚ) (h1 : 0 < t1) (hB : GATHER_DURATION_MS ≤ tB - t1) :
    ∀ (mids : List ℚ) (p : ℚ), (∀ x ∈ mids, x - t1 < GATHER_DURATION_MS) →
      runTicks ((mids ++ [tB]).map backTick) ⟨p, ts, t1⟩ = ⟨⟨0, ts, -1⟩, 0, 1⟩ := by
  intro mids
  induction mids with
  | nil =>
    intro p _
    simp [runTicks_cons, runTicks_nil, backTick, zoomStep_back_done t1 tB p ts h1 hB]
  | cons m ms ih =>
    intro p hm
    have hm1 : m - t1 < GATHER_DURATION_MS := hm m (by simp)
    have hrest : ∀ x ∈ ms, x - t1 < GATHER_DURATION_MS := fun x hx => hm x (by simp [hx])
    have hin : List.map backTick ((m :: ms) ++ [tB])
        = (m, false, true) :: List.map backTick (ms ++ [tB]) := rfl
    rw [hin, runTicks_cons, zoomStep_back_mid t1 m p ts h1 hm1,
      ih (1 - easeOutCubic ((m - t1) / GATHER_DURATION_MS)) hrest]
    rfl
/-- C1: Zoom round-trip.  From idle, a run whose ticks hold
`transitionRequested` true (and `zoomBackRequested` false) — first tick
`t0 > 0`, then ticks before the 1100 ms duration elapses, then a tick
`tA` at or past it — followed by ticks holding `zoomBackRequested` true
(and `transitionRequested` false) with the same shape, ends with the
gather-progress uniform exactly 0; `onTransitionComplete` fires exactly
once, already within the zoom-in segment (so before any zoom-back phase
tick), and `onZoomBackComplete` fires exactly once. -/
theorem zoom_round_trip (t0 tA t1 tB : ℚ) (mids1 mids2 : List ℚ)
    (h0 : 0 < t0) (h1 : 0 < t1)
    (hm1 : ∀ x ∈ mids1, x - t0 < GATHER_DURATION_MS)
    (hA : GATHER_DURATION_MS ≤ tA - t0)
    (hm2 : ∀ x ∈ mids2, x - t1 < GATHER_DURATION_MS)
    (hB : GATHER_DURATION_MS ≤ tB - t1) :
    runTicks (((t0 :: mids1) ++ [tA]).map inTick) initZoomState = ⟨⟨1, -1, 0⟩, 1, 0⟩ ∧
    runTicks (((t0 :: mids1) ++ [tA]).map inTick
        ++ ((t1 :: mids2) ++ [tB]).map backTick) initZoomState = ⟨⟨0, -1, -1⟩, 1, 1⟩ := by
  have eA : runTicks (((t0 :: mids1) ++ [tA]).map inTick) initZoomState = ⟨⟨1, -1, 0⟩, 1, 0⟩ := by
    have hfirst : List.map inTick ((t0 :: mids1) ++ [tA])
        = (t0, true, false) :: List.map inTick (mids1 ++ [tA]) := rfl
    rw [show initZoomState = (⟨0, 0, -1⟩ : ZoomState) from rfl, hfirst, runTicks_cons,
      zoomStep_in_start t0 0 (-1), runTicks_in_phase t0 tA h0 hA mids1 0 hm1]
    rfl
  have eB : runTicks (((t1 :: mids2) ++ [tB]).map backTick) ⟨1, -1, 0⟩ = ⟨⟨0, -1, -1⟩, 0, 1⟩ := by
    have hfirst : List.map backTick ((t1 :: mids2) ++ [tB])
        = (t1, false, true) :: List.map backTick (mids2 ++ [tB]) := rfl
    rw [hfirst, runTicks_cons, zoomStep_back_start t1 1 (-1),
      runTicks_back_phase t1 tB (-1) h1 hB mids2 1 hm2]
    rfl
  refine ⟨eA, ?_⟩
  rw [runTicks_append, eA,
    show (⟨⟨1, -1, 0⟩, 1, 0⟩ : RunResult).state = (⟨1, -1, 0⟩ : ZoomState) from rfl, eB]
  rfl

/-- Witness for C1 at a concrete schedule: zoom-in ticks at 10 and 1200 ms,
zoom-back ticks at 2000 and 3200 ms. -/
theorem zoom_round_trip_witness :
    runTicks (((10 :: ([] : List ℚ)) ++ [1200]).map inTick
        ++ ((2000 :: ([] : List ℚ)) ++ [3200]).map backTick) initZoomState
      = ⟨⟨0, -1, -1⟩, 1, 1⟩ :=
  (zoom_round_trip 10 1200 2000 3200 [] [] (by norm_num) (by norm_num)
    (by simp) (by norm_num [GATHER_DURATION_MS])
    (by simp) (by norm_num [GATHER_DURATION_MS])).2

/-- Gather progress written by the tick at elapsed time `e` of a
zooming-in phase that started at timestamp `t0` (mid-phase state
`⟨p, t0, 0⟩`, tick timestamp `t0 + e`). -/
def zoomInProgressAt (t0 p e : ℚ) : ℚ :=
  (zoomStep true false (t0 + e) ⟨p, t0, 0⟩).state.gatherProgress

/-- C2: during a zooming-in phase started at `t0`, a tick with elapsed
`e ∈ [0, 1100]` computes progress `easeOutCubic (e / 1100)`; this is
non-decreasing in `e` on that interval; progress at `e = 0` is 0; and
any tick with `e ≥ 1100` sets progress to exactly 1. -/
theorem zoom_in_progress_curve (t0 p : ℚ) (h0 : 0 < t0) :
    (∀ e, 0 ≤ e → e ≤ GATHER_DURATION_MS →
      zoomInProgressAt t0 p e = easeOutCubic (e / GATHER_DURATION_MS)) ∧
    (∀ e1 e2, 0 ≤ e1 → e1 ≤ e2 → e2 ≤ GATHER_DURATION_MS →
      zoomInProgressAt t0 p e1 ≤ zoomInProgressAt t0 p e2) ∧
    zoomInProgressAt t0 p 0 = 0 ∧
    (∀ e, GATHER_DURATION_MS ≤ e → zoomInProgressAt t0 p e = 1) := by
  have hd : (0 : ℚ) < GATHER_DURATION_MS := by norm_num [GATHER_DURATION_MS]
  have keyDone : ∀ e, GATHER_DURATION_MS ≤ e → zoomInProgressAt t0 p e = 1 := by
    intro e he
    unfold zoomInProgressAt
    rw [zoomStep_in_done t0 (t0 + e) p h0 (by rw [add_sub_cancel_left]; exact he)]
  have key : ∀ e, 0 ≤ e → e ≤ GATHER_DURATION_MS →
      zoomInProgressAt t0 p e = easeOutCubic (e / GATHER_DURATION_MS) := by
    intro e _ he1
    rcases lt_or_eq_of_le he1 with hlt | heq
    · unfold zoomInProgressAt
      rw [zoomStep_in_mid t0 (t0 + e) p h0 (by rw [add_sub_cancel_left]; exact hlt),
        add_sub_cancel_left]
    · rw [heq, div_self hd.ne', easeOutCubic_one, keyDone GATHER_DURATION_MS le_rfl]
  refine ⟨key, ?_, ?_, keyDone⟩
  · intro e1 e2 h1 h12 h2
    rw [key e1 h1 (h12.trans h2), key e2 (h1.trans h12) h2]
    exact easeOutCubic_mono (by gcongr)
  · rw [key 0 le_rfl hd.le, zero_div, easeOutCubic_zero]

/-- Witness for C2 at `t0 = 10`: progress at elapsed 0 is 0. -/
theorem zoom_in_progress_curve_witness : zoomInProgressAt 10 0 0 = 0 :=
  (zoom_in_progress_curve 10 0 (by norm_num)).2.2.1

/-- C3: the gather remap applied to the sampled world position and the
one applied to the mouse-sampling position both equal the spec's step
sequence with compressed progress `clamp(g,0,0.9999) * 0.58`, hence the
two evaluate identical math for every progress `g` and target `T`
(the same single code path serves zoom-in and zoom-back). -/
theorem gather_remap_matching_math (g p m T grid : ℚ) :
    gatherRemapWorld g p T grid = gatherRemapSpec g p T grid ∧
    gatherRemapMouse g m T grid = gatherRemapSpec g m T grid ∧
    gatherRemapWorld g m T grid = gatherRemapMouse g m T grid :=
  ⟨rfl, rfl, rfl⟩

/-- C4: at gather progress 0 the gather branch (guarded by
`uGatherProgress > 0.001`) is skipped, so the position used for pattern
sampling is `p` unchanged. -/
theorem gather_identity_at_zero (p T grid : ℚ) :
    sampledWorldPos 0 p T grid = p := by
  unfold sampledWorldPos
  norm_num

/-- C5 counterexample: at `iTime = 1` the slowed grain time
(`1 * 0.005`) is not the normal grain time divided by 60
(`1 * 0.333333 / 60`). -/
theorem grain_time_not_60x : grainTime 1 1 ≠ grainTime 0 1 / 60 := by
  norm_num [grainTime]

/-- C5 amended: when the gather progress exceeds 0.5, the grain time
base is exactly 66.6666 times (the ratio `0.333333 / 0.005 =
333333/5000`) slower than in the normal state, not 60 times. -/
theorem grain_time_slowdown_factor (g iTime : ℚ) (h : 1 / 2 < g) :
    grainTime g iTime * (333333 / 5000) = grainTime 0 iTime ∧
    grainTime g iTime = grainTime 0 iTime / (333333 / 5000) := by
  constructor <;> · norm_num [grainTime, h]; ring

/-- Witness for the amended C5 at `g = 1`, `iTime = 1`. -/
theorem grain_time_slowdown_factor_witness :
    grainTime 1 1 * (333333 / 5000) = grainTime 0 1 :=
  (grain_time_slowdown_factor 1 1 (by norm_num)).1

/-- Raw or smoothed mouse position (the `mouseRef` / `smoothMouseRef`
pairs of the scheduler). -/
structure Mouse2 where
  x : ℚ
  y : ℚ
  deriving DecidableEq, Repr

/-- One tick of mouse smoothing from `update`:
`smoothMouse.x += (mouse.x - smoothMouse.x) * dampingFactor` and
likewise for `y`, with `dampingFactor = 0.08`. -/
def smoothStep (raw s : Mouse2) : Mouse2 :=
  ⟨s.x + (raw.x - s.x) * (8 / 100), s.y + (raw.y - s.y) * (8 / 100)⟩

/-- `n` consecutive ticks with the raw mouse position held constant. -/
def smoothIter (raw : Mouse2) : ℕ → Mouse2 → Mouse2
  | 0, s => s
  | n + 1, s => smoothIter raw n (smoothStep raw s)

/-- Squared distance between two mouse positions. -/
def sqDist (a b : Mouse2) : ℚ := (a.x - b.x) ^ 2 + (a.y - b.y) ^ 2

/-- Per-tick error contraction of the exponential smoothing, one
component at a time. -/
theorem smoothStep_error (raw s : Mouse2) :
    raw.x - (smoothStep raw s).x = (1 - 8 / 100) * (raw.x - s.x) ∧
    raw.y - (smoothStep raw s).y = (1 - 8 / 100) * (raw.y - s.y) := by
  constructor <;> · simp only [smoothStep]; ring

/-- After `n` ticks at constant raw position the componentwise error is
`(23/25)^n = (1 - 0.08)^n` times the initial error. -/
theorem smoothIter_error (raw : Mouse2) :
    ∀ (n : ℕ) (s : Mouse2),
      raw.x - (smoothIter raw n s).x = (23 / 25) ^ n * (raw.x - s.x) ∧
      raw.y - (smoothIter raw n s).y = (23 / 25) ^ n * (raw.y - s.y) := by
  intro n
  induction n with
  | zero => intro s; simp [smoothIter]
  | succ k ih =>
    intro s
    have h := ih (smoothStep raw s)
    have hx := (smoothStep_error raw s).1
    have hy := (smoothStep_error raw s).2
    constructor
    · calc raw.x - (smoothIter raw (k + 1) s).x
          = raw.x - (smoothIter raw k (smoothStep raw s)).x := rfl
        _ = (23 / 25) ^ k * (raw.x - (smoothStep raw s).x) := h.1
        _ = (23 / 25) ^ k * ((1 - 8 / 100) * (raw.x - s.x)) := by rw [hx]
        _ = (23 / 25) ^ (k + 1) * (raw.x - s.x) := by ring
    · calc raw.y - (smoothIter raw (k + 1) s).y
          = raw.y - (smoothIter raw k (smoothStep raw s)).y := rfl
        _ = (23 / 25) ^ k * (raw.y - (smoothStep raw s).y) := h.2
        _ = (23 / 25) ^ k * ((1 - 8 / 100) * (raw.y - s.y)) := by rw [hy]
        _ = (23 / 25) ^ (k + 1) * (raw.y - s.y) := by ring

/-- C6 counterexample: with raw mouse `(1,0)` held constant from
smoothed start `(0,0)` (initial distance 1), after 55 ticks the distance
to the raw position is `(23/25)^55 > 1/100`: 55 ticks do not bring it
within 1% of its initial value, so
`ceil(log(0.01)/log(1-0.08)) ≠ 55`. -/
theorem mouse_smoothing_55_ticks_insufficient :
    1 / 100 < |(1 : ℚ) - (smoothIter ⟨1, 0⟩ 55 ⟨0, 0⟩).x| := by
  have h : (1 : ℚ) - (smoothIter ⟨1, 0⟩ 55 ⟨0, 0⟩).x = (23 / 25) ^ 55 := by
    simpa using (smoothIter_error ⟨1, 0⟩ 55 ⟨0, 0⟩).1
  rw [h, abs_of_nonneg (by positivity)]
  norm_num

/-- C6 amended: each tick updates `smoothed += (raw - smoothed) * 0.08`
per component, so the error shrinks by the factor `1 - 0.08` each tick,
the squared distance after `n` ticks is `((23/25)^n)^2` times the
initial one, and the distance falls to within 1% of its initial value
within `ceil(log(0.01)/log(1-0.08)) = 56` ticks (not 55). -/
theorem mouse_smoothing_convergence (raw s : Mouse2) :
    (raw.x - (smoothStep raw s).x = (1 - 8 / 100) * (raw.x - s.x) ∧
     raw.y - (smoothStep raw s).y = (1 - 8 / 100) * (raw.y - s.y)) ∧
    (∀ n : ℕ, sqDist raw (smoothIter raw n s) = ((23 / 25) ^ n) ^ 2 * sqDist raw s) ∧
    |raw.x - (smoothIter raw 56 s).x| ≤ (1 / 100) * |raw.x - s.x| ∧
    |raw.y - (smoothIter raw 56 s).y| ≤ (1 / 100) * |raw.y - s.y| := by
  have hpow : ((23 : ℚ) / 25) ^ 56 ≤ 1 / 100 := by norm_num
  refine ⟨smoothStep_error raw s, ?_, ?_, ?_⟩
  · intro n
    have h := smoothIter_error raw n s
    unfold sqDist
    rw [h.1, h.2]
    ring
  · rw [(smoothIter_error raw 56 s).1, abs_mul, abs_of_nonneg (by positivity : (0:ℚ) ≤ (23 / 25) ^ 56)]
    exact mul_le_mul_of_nonneg_right hpow (abs_nonneg _)
  · rw [(smoothIter_error raw 56 s).2, abs_mul, abs_of_nonneg (by positivity : (0:ℚ) ≤ (23 / 25) ^ 56)]
    exact mul_le_mul_of_nonneg_right hpow (abs_nonneg _)

/-- The shader uniforms of the single `Program` (FaultyTerminal.jsx),
with GLSL vec2/vec3 values as tuples. -/
structure Uniforms where
  iTime : ℚ
  iResolution : ℚ × ℚ × ℚ
  uScale : ℚ
  uGridMul : ℚ × ℚ
  uDigitSize : ℚ
  uScanlineIntensity : ℚ
  uGlitchAmount : ℚ
  uFlickerAmount : ℚ
  uNoiseAmp : ℚ
  uChromaticAberration : ℚ
  uDither : ℚ
  uCurvature : ℚ
  uTint : ℚ × ℚ × ℚ
  uMouse : ℚ × ℚ
  uMouseStrength : ℚ
  uUseMouse : ℚ
  uPageLoadProgress : ℚ
  uUsePageLoadAnimation : ℚ
  uBrightness : ℚ
  uGatherProgress : ℚ
  uTargetPos : ℚ × ℚ
  deriving DecidableEq, Repr

/-- The uniform writes of `resize()`: `iResolution.set(w, h, w/h)` and
`uScale = scale * scaleFactor` with
`scaleFactor = min(w/1920, h/1080) * dpr`; `scale` is the prop and
`dpr` the mount-time device-pixel ratio, neither read from previous
uniform values.  The canvas/backbuffer sizing performed alongside
(`renderer.setSize` at 88% of the window, CSS size) touches no
uniforms. -/
def resize (scale dpr w h : ℚ) (u : Uniforms) : Uniforms :=
  { u with
    iResolution := (w, h, w / h),
    uScale := scale * (min (w / 1920) (h / 1080) * dpr) }

/-- C7: `resize` twice with the same window dimensions equals `resize`
once on every uniform, and `uScale` is the normalized value
`scale * min(w/1920, h/1080) * dpr` — computed afresh from the config,
never from the previous `uScale`, so no scaling accumulates. -/
theorem resize_idempotent (scale dpr w h : ℚ) (u : Uniforms) :
    resize scale dpr w h (resize scale dpr w h u) = resize scale dpr w h u ∧
    (resize scale dpr w h u).uScale = scale * (min (w / 1920) (h / 1080) * dpr) :=
  ⟨rfl, rfl⟩

/-- The elapsed-time bookkeeping of `update`: the `iTime` uniform and
the `frozenTimeRef`. -/
structure TimeState where
  iTime : ℚ
  frozenTime : ℚ
  deriving DecidableEq, Repr

/-- Time handling of one `update(t)` tick: unless paused, both `iTime`
and the frozen-time ref are set to
`(t * 0.001 + timeOffset) * timeScale`; when paused, `iTime` is set to
the frozen-time ref, which keeps its last value. -/
def timeStep (pause : Bool) (timeScale timeOffset t : ℚ) (st : TimeState) : TimeState :=
  if pause then ⟨st.frozenTime, st.frozenTime⟩
  else ⟨(t * (1 / 1000) + timeOffset) * timeScale, (t * (1 / 1000) + timeOffset) * timeScale⟩

/-- A run of ticks at the given timestamps. -/
def runTimeSteps (pause : Bool) (timeScale timeOffset : ℚ) (ts : List ℚ) (st : TimeState) : TimeState :=
  ts.foldl (fun s t => timeStep pause timeScale timeOffset t s) st

/-- C8: with `pause` true, any sequence of ticks leaves the time state
(in particular `iTime`) unchanged at its pre-pause value, given that an
earlier unpaused tick (or the initial state `⟨0,0⟩`) left
`iTime = frozenTime`; with `pause` false, each tick sets `iTime` to the
wall-clock-derived `(t * 0.001 + timeOffset) * timeScale`. -/
theorem pause_freezes_time (timeScale timeOffset : ℚ) :
    (∀ (ts : List ℚ) (st : TimeState), st.iTime = st.frozenTime →
      runTimeSteps true timeScale timeOffset ts st = st) ∧
    (∀ (st : TimeState) (t : ℚ),
      (timeStep false timeScale timeOffset t st).iTime
        = (t * (1 / 1000) + timeOffset) * timeScale) := by
  constructor
  · intro ts
    induction ts with
    | nil => intro st _; rfl
    | cons t rest ih =>
      intro st h
      obtain ⟨i, f⟩ := st
      have hif : i = f := h
      subst hif
      have h1 : timeStep true timeScale timeOffset t ⟨i, i⟩ = ⟨i, i⟩ := rfl
      calc runTimeSteps true timeScale timeOffset (t :: rest) ⟨i, i⟩
          = runTimeSteps true timeScale timeOffset rest
              (timeStep true timeScale timeOffset t ⟨i, i⟩) := rfl
        _ = runTimeSteps true timeScale timeOffset rest ⟨i, i⟩ := by rw [h1]
        _ = ⟨i, i⟩ := ih ⟨i, i⟩ rfl
  · intro st t
    rfl

/-- Witness for C8: two paused ticks leave the state `⟨2, 2⟩` unchanged. -/
theorem pause_freezes_time_witness :
    runTimeSteps true 3 7 [5, 9] ⟨2, 2⟩ = ⟨2, 2⟩ :=
  (pause_freezes_time 3 7).1 [5, 9] ⟨2, 2⟩ rfl

/-- A JavaScript number: finite, or one of the non-finite values. -/
inductive JSNum where
  | fin (q : ℚ)
  | nan
  | inf
  | ninf
  deriving DecidableEq, Repr

/-- The numeric configuration props of `FaultyTerminal` with their
declared defaults.  The component body applies no validation to them;
they are JavaScript numbers and may be non-finite. -/
structure NumericConfig where
  scale : JSNum := .fin 1
  digitSize : JSNum := .fin (3 / 2)
  timeScale : JSNum := .fin (3 / 10)
  scanlineIntensity : JSNum := .fin (3 / 10)
  glitchAmount : JSNum := .fin 1
  flickerAmount : JSNum := .fin 1
  noiseAmp : JSNum := .fin 0
  chromaticAberration : JSNum := .fin 0
  dither : JSNum := .fin 0
  curvature : JSNum := .fin (2 / 10)
  mouseStrength : JSNum := .fin (2 / 10)
  brightness : JSNum := .fin 1
  deriving DecidableEq, Repr

/-- The scalar numeric uniforms uploaded at `Program` construction.
(`timeScale` is consumed by the loop rather than uploaded; a numeric
`dither` prop is passed through `ditherValue` unchanged.) -/
structure ProgramNumericUniforms where
  uScale : JSNum
  uDigitSize : JSNum
  uScanlineIntensity : JSNum
  uGlitchAmount : JSNum
  uFlickerAmount : JSNum
  uNoiseAmp : JSNum
  uChromaticAberration : JSNum
  uDither : JSNum
  uCurvature : JSNum
  uMouseStrength : JSNum
  uBrightness : JSNum
  uGatherProgress : JSNum
  deriving DecidableEq, Repr

/-- Construction of the `Program` uniforms from the props (the
`uniforms: { ... }` object literal): each numeric prop is copied
directly into its uniform, with `uGatherProgress` starting at 0.  The
construction is total: no code path inspects the values or raises a
validation error. -/
def mkProgramUniforms (c : NumericConfig) : ProgramNumericUniforms :=
  ⟨c.scale, c.digitSize, c.scanlineIntensity, c.glitchAmount, c.flickerAmount,
    c.noiseAmp, c.chromaticAberration, c.dither, c.curvature, c.mouseStrength,
    c.brightness, .fin 0⟩

/-- C9 counterexample: a configuration whose `scale` is NaN is accepted
— uniform construction succeeds and uploads the NaN into `uScale` —
rather than being rejected with a validation error at
configuration-construction time. -/
theorem nonfinite_config_not_rejected :
    (mkProgramUniforms { scale := JSNum.nan }).uScale = JSNum.nan := rfl

/-- C9 amended: the component performs no configuration validation:
every numeric parameter, finite or not, is copied unchanged into its
shader uniform at construction. -/
theorem config_passes_through_unvalidated (c : NumericConfig) :
    (mkProgramUniforms c).uScale = c.scale ∧
    (mkProgramUniforms c).uDigitSize = c.digitSize ∧
    (mkProgramUniforms c).uNoiseAmp = c.noiseAmp ∧
    (mkProgramUniforms c).uCurvature = c.curvature ∧
    (mkProgramUniforms c).uBrightness = c.brightness :=
  ⟨rfl, rfl, rfl, rfl, rfl⟩

/-- C10 counterexample: the zoom-in tick writes
`easeOutCubic(elapsed / 1100)` with no clamp on `elapsed / 1100` (only
the guard `elapsed < 1100`), so the step function itself does not keep
the progress in [0,1]: a reachable run whose second tick carries a
timestamp smaller than the first (`1000` then `0`) drives the
gather-progress uniform strictly below 0, where the claimed
`easeOutCubic` of a value clamped to [0,1] would have written 0. -/
theorem gather_progress_escapes_interval :
    (runTicks [(1000, true, false), (0, true, false)] initZoomState).state.gatherProgress < 0 := by
  rw [show initZoomState = (⟨0, 0, -1⟩ : ZoomState) from rfl, runTicks_cons,
    zoomStep_in_start 1000 0 (-1), runTicks_cons,
    zoomStep_in_mid 1000 0 0 (by norm_num) (by norm_num [GATHER_DURATION_MS]), runTicks_nil]
  show easeOutCubic ((0 - 1000) / GATHER_DURATION_MS) < 0
  norm_num [easeOutCubic, GATHER_DURATION_MS]

/-- Inductive invariant for the transition state relative to the last
tick timestamp `tprev`: progress lies in [0,1] and each phase-start ref
is a sentinel (0 or -1) or a timestamp no later than `tprev`. -/
def ZoomInv (tprev : ℚ) (s : ZoomState) : Prop :=
  0 ≤ s.gatherProgress ∧ s.gatherProgress ≤ 1 ∧
  (s.transitionStart = 0 ∨ s.transitionStart = -1 ∨ s.transitionStart ≤ tprev) ∧
  (s.zoomBackStart = 0 ∨ s.zoomBackStart = -1 ∨ s.zoomBackStart ≤ tprev)

/-- The branch chain preserves the invariant when the tick timestamp is
no earlier than the previous one. -/
theorem zoomStepCore_preserves_inv (req back : Bool) (tprev t : ℚ) (ht : tprev ≤ t)
    (s : ZoomState) (h : ZoomInv tprev s) : ZoomInv t (zoomStepCore req back t s).state := by
  obtain ⟨hp0, hp1, hts, hzs⟩ := h
  have hd : (0 : ℚ) < GATHER_DURATION_MS := by norm_num [GATHER_DURATION_MS]
  have hts' : s.transitionStart = 0 ∨ s.transitionStart = -1 ∨ s.transitionStart ≤ t :=
    hts.imp id (Or.imp id fun hh => hh.trans ht)
  have hzs' : s.zoomBackStart = 0 ∨ s.zoomBackStart = -1 ∨ s.zoomBackStart ≤ t :=
    hzs.imp id (Or.imp id fun hh => hh.trans ht)
  have hbound : ∀ e : ℚ, 0 ≤ e → e < GATHER_DURATION_MS →
      0 ≤ easeOutCubic (e / GATHER_DURATION_MS) ∧ easeOutCubic (e / GATHER_DURATION_MS) ≤ 1 := by
    intro e he0 he1
    exact ⟨easeOutCubic_nonneg (div_nonneg he0 hd.le),
      easeOutCubic_le_one (by rw [div_le_one hd]; exact he1.le)⟩
  simp only [zoomStepCore]
  by_cases hb : back = true ∧ 0 ≤ s.zoomBackStart
  · rw [if_pos hb]
    by_cases hz0 : s.zoomBackStart = 0
    · have e1 : (if s.zoomBackStart = 0 then t else s.zoomBackStart) = t := if_pos hz0
      simp only [e1]
      have hlt : t - t < GATHER_DURATION_MS := by rw [sub_self]; exact hd
      rw [if_pos hlt]
      show ZoomInv t ⟨1 - easeOutCubic ((t - t) / GATHER_DURATION_MS), s.transitionStart, t⟩
      rw [sub_self, zero_div, easeOutCubic_zero]
      exact ⟨by norm_num, by norm_num, hts', Or.inr (Or.inr le_rfl)⟩
    · have e1 : (if s.zoomBackStart = 0 then t else s.zoomBackStart) = s.zoomBackStart :=
        if_neg hz0
      simp only [e1]
      have hzle : s.zoomBackStart ≤ t := by
        rcases hzs' with h0 | h1 | hle
        · exact absurd h0 hz0
        · exfalso; rw [h1] at hb; exact absurd hb.2 (by norm_num)
        · exact hle
      by_cases he : t - s.zoomBackStart < GATHER_DURATION_MS
      · rw [if_pos he]
        obtain ⟨hb1, hb2⟩ := hbound _ (sub_nonneg.mpr hzle) he
        exact ⟨by linarith, by linarith, hts', Or.inr (Or.inr hzle)⟩
      · rw [if_neg he]
        exact ⟨le_rfl, by norm_num, hts', Or.inr (Or.inl rfl)⟩
  · rw [if_neg hb]
    by_cases hr : req = true ∧ 0 ≤ s.transitionStart
    · rw [if_pos hr]
      by_cases ht0 : s.transitionStart = 0
      · have e1 : (if s.transitionStart = 0 then t else s.transitionStart) = t := if_pos ht0
        simp only [e1]
        have hlt : t - t < GATHER_DURATION_MS := by rw [sub_self]; exact hd
        rw [if_pos hlt]
        show ZoomInv t ⟨easeOutCubic ((t - t) / GATHER_DURATION_MS), t, s.zoomBackStart⟩
        rw [sub_self, zero_div, easeOutCubic_zero]
        exact ⟨le_rfl, by norm_num, Or.inr (Or.inr le_rfl), hzs'⟩
      · have e1 : (if s.transitionStart = 0 then t else s.transitionStart) = s.transitionStart :=
          if_neg ht0
        simp only [e1]
        have htle : s.transitionStart ≤ t := by
          rcases hts' with h0 | h1 | hle
          · exact absurd h0 ht0
          · exfalso; rw [h1] at hr; exact absurd hr.2 (by norm_num)
          · exact hle
        by_cases he : t - s.transitionStart < GATHER_DURATION_MS
        · rw [if_pos he]
          obtain ⟨hb1, hb2⟩ := hbound _ (sub_nonneg.mpr htle) he
          exact ⟨hb1, hb2, Or.inr (Or.inr htle), hzs'⟩
        · rw [if_neg he]
          exact ⟨by norm_num, le_rfl, Or.inr (Or.inl rfl), hzs'⟩
    · rw [if_neg hr]
      by_cases hr0 : req = false
      · rw [if_pos hr0]
        exact ⟨hp0, hp1, Or.inl rfl, hzs'⟩
      · rw [if_neg hr0]
        exact ⟨hp0, hp1, hts', hzs'⟩

/-- The full tick (chain plus trailing `zoomBackStart := 0` reset)
preserves the invariant. -/
theorem zoomStep_preserves_inv (req back : Bool) (tprev t : ℚ) (ht : tprev ≤ t)
    (s : ZoomState) (h : ZoomInv tprev s) : ZoomInv t (zoomStep req back t s).state := by
  have hc := zoomStepCore_preserves_inv req back tprev t ht s h
  simp only [zoomStep]
  by_cases hb : back = false
  · rw [if_pos hb]
    exact ⟨hc.1, hc.2.1, hc.2.2.1, Or.inl rfl⟩
  · rw [if_neg hb]
    exact hc

/-- Any run of ticks from an invariant-satisfying state ends in an
invariant-satisfying state, provided the timestamps are a
non-decreasing chain. -/
theorem runTicks_inv (ticks : List (ℚ × Bool × Bool)) :
    ∀ (t0 : ℚ) (s : ZoomState), ZoomInv t0 s →
      List.Chain (fun a b : ℚ => a ≤ b) t0 (ticks.map Prod.fst) →
      ∃ t1, ZoomInv t1 (runTicks ticks s).state := by
  induction ticks with
  | nil => intro t0 s h _; exact ⟨t0, h⟩
  | cons hd tl ih =>
    obtain ⟨t, req, back⟩ := hd
    intro t0 s h hchain
    rw [List.map_cons, List.chain_cons] at hchain
    exact ih t (zoomStep req back t s).state
      (zoomStep_preserves_inv req back t0 t hchain.1 s h) hchain.2

/-- C10 amended: the gather-progress uniform starts at 0 and, for every
run of the render-loop step function whose tick timestamps are
non-decreasing (as the platform's frame timestamps are), stays in
[0,1]: a zoom-in tick writes `easeOutCubic(elapsed/1100)` where the
`elapsed < 1100` guard and clock monotonicity (not a clamp) keep the
argument in [0,1), a zoom-back tick writes 1 minus such a value, and
completion writes exactly 1 or exactly 0. -/
theorem gather_progress_invariant (ticks : List (ℚ × Bool × Bool)) (t0 : ℚ)
    (hchain : List.Chain (fun a b : ℚ => a ≤ b) t0 (ticks.map Prod.fst)) :
    0 ≤ (runTicks ticks initZoomState).state.gatherProgress ∧
    (runTicks ticks initZoomState).state.gatherProgress ≤ 1 := by
  have hinit : ZoomInv t0 initZoomState :=
    ⟨le_rfl, by norm_num [initZoomState], Or.inl rfl, Or.inr (Or.inl rfl)⟩
  obtain ⟨t1, h⟩ := runTicks_inv ticks t0 initZoomState hinit hchain
  exact ⟨h.1, h.2.1⟩

/-- Witness for the amended C10 on a concrete non-decreasing schedule. -/
theorem gather_progress_invariant_witness :
    0 ≤ (runTicks [(5, true, false), (2000, true, false)] initZoomState).state.gatherProgress ∧
    (runTicks [(5, true, false), (2000, true, false)] initZoomState).state.gatherProgress ≤ 1 :=
  gather_progress_invariant [(5, true, false), (2000, true, false)] 0
    (List.Chain.cons (by norm_num) (List.Chain.cons (by norm_num) List.Chain.nil))
